import Mathlib

/-!
Shallow embedding of the arturo sequencer-consensus conductor core.

The Rust sources embedded here:
  * src/src/types.rs        — EpochChange, ConductorError, TransferError, PendingPayload
  * src/src/automaton.rs    — PayloadAutomaton (chain state, validate, submit_proposal,
                              acknowledge, certify, verify)
  * src/src/conductor.rs    — Conductor::commit and its error translation
  * src/demo/src/epoch.rs   — RoundRobinEpochManager
  * src/bin/epoch.rs        — HealthBasedEpochManager (poll_and_update, key_for_url,
                              sequencer)

Async methods hold a single lock for their whole body, so each is embedded as a
pure function from the guarded state to the result together with the updated
state.  Machine integers (u64 heights and epochs, usize counters) are embedded
as Nat: none of the embedded operations can overflow in a way the claims
depend on, and the Rust code performs no wrapping arithmetic.  The tokio
oneshot channel returned by submit_proposal is embedded as the Option of the
value that was sent on it before the receiver was handed back.
-/

namespace Arturo

/-- Payload contract (trait Payload in src/src/traits.rs): a digest, a height
and an optional parent digest.  encode and decode are not needed by any claim
formalised here. -/
structure PayloadImpl (P : Type) (D : Type) where
  digest : P → D
  height : P → Nat
  parent : P → Option D

/-- EpochChange from src/src/types.rs. -/
structure EpochChange (K : Type) where
  epoch : Nat
  sequencer : K
  is_self : Bool
  deriving DecidableEq, Repr

/-- ConductorError from src/src/types.rs. -/
inductive ConductorError where
  | NotSequencer : ConductorError
  | ValidationFailed : String → ConductorError
  | InvalidHeight : Nat → Nat → ConductorError
  | ParentMismatch : String → String → ConductorError
  | NotInitialized : ConductorError
  | ChannelClosed : ConductorError
  deriving DecidableEq, Repr

/-- TransferError from src/src/types.rs. -/
inductive TransferError where
  | NotSupported : TransferError
  | NoSuccessor : TransferError
  | InProgress : TransferError
  | Failed : String → TransferError
  | Timeout : TransferError
  deriving DecidableEq, Repr

/-- PendingPayload from src/src/types.rs. -/
structure PendingPayload (P : Type) where
  payload : P
  acks : Nat
  threshold : Nat
  deriving DecidableEq, Repr

namespace PendingPayload

/-- PendingPayload::new. -/
def new (payload : P) (threshold : Nat) : PendingPayload P :=
  { payload := payload, acks := 0, threshold := threshold }

/-- PendingPayload::is_certified: acks >= threshold. -/
def is_certified (pp : PendingPayload P) : Bool :=
  decide (pp.acks ≥ pp.threshold)

/-- PendingPayload::acknowledge: acks += 1. -/
def acknowledge (pp : PendingPayload P) : PendingPayload P :=
  { pp with acks := pp.acks + 1 }

end PendingPayload

/-- The BTreeMap Height → P of the automaton, embedded as an association list
with unique keys maintained by bhInsert.  Iteration order is irrelevant to
every claim (verify only asks whether some value matches). -/
def bhInsert (h : Nat) (p : P) : List (Nat × P) → List (Nat × P)
  | [] => [(h, p)]
  | (k, q) :: rest => if k = h then (h, p) :: rest else (k, q) :: bhInsert h p rest

/-- BTreeMap::get on the association list. -/
def bhGet (h : Nat) : List (Nat × P) → Option P
  | [] => none
  | (k, q) :: rest => if k = h then some q else bhGet h rest

/-- PayloadState from src/src/automaton.rs: the state guarded by the RwLock
inside PayloadAutomaton.  pending_proposal holds the digest a not-yet-taken
oneshot sender would deliver; submit_proposal installs the sender and
immediately takes and fires it, so the field is none again when the lock is
released. -/
structure PayloadState (P D : Type) where
  latest_certified : Option P
  pending : Option (PendingPayload P)
  by_height : List (Nat × P)
  pending_proposal : Option D
  deriving Repr, DecidableEq

namespace PayloadState

/-- PayloadState::default / PayloadAutomaton::new. -/
def new : PayloadState P D :=
  { latest_certified := none, pending := none, by_height := [], pending_proposal := none }

/-- PayloadAutomaton::with_genesis. -/
def with_genesis (pi : PayloadImpl P D) (genesis : P) : PayloadState P D :=
  { latest_certified := some genesis
    pending := none
    by_height := [(pi.height genesis, genesis)]
    pending_proposal := none }

end PayloadState

/-- PayloadAutomaton::next_height:
latest_certified.as_ref().map(|p| p.height() + 1).unwrap_or(0). -/
def next_height (pi : PayloadImpl P D) (s : PayloadState P D) : Nat :=
  (s.latest_certified.map (fun p => pi.height p + 1)).getD 0

/-- PayloadAutomaton::submit_proposal.  The Rust code creates a oneshot
channel, stores the pending payload and the sender under the write lock, then
immediately takes the sender back and sends the digest, returning the
receiver.  The returned Option D is what the receiver will yield: always some
digest, because the send happens while the receiver is still alive. -/
def submit_proposal (pi : PayloadImpl P D) (s : PayloadState P D) (payload : P)
    (threshold : Nat) : Option D × PayloadState P D :=
  let digest := pi.digest payload
  ( some digest,
    { s with pending := some (PendingPayload.new payload threshold)
             pending_proposal := none } )

/-- PayloadAutomaton::acknowledge. -/
def acknowledge (pi : PayloadImpl P D) (s : PayloadState P D) :
    Option P × PayloadState P D :=
  match s.pending with
  | some pend =>
    let pend := pend.acknowledge
    if pend.is_certified then
      let payload := pend.payload
      let height := pi.height payload
      ( some payload,
        { s with by_height := bhInsert height payload s.by_height
                 latest_certified := some payload
                 pending := none } )
    else
      (none, { s with pending := some pend })
  | none => (none, s)

/-- PayloadAutomaton::certify. -/
def certify (pi : PayloadImpl P D) (s : PayloadState P D) (payload : P) :
    PayloadState P D :=
  let height := pi.height payload
  let s := { s with by_height := bhInsert height payload s.by_height }
  let should_update :=
    (s.latest_certified.map (fun p => decide (pi.height payload > pi.height p))).getD true
  if should_update then { s with latest_certified := some payload } else s

/-- PayloadAutomaton::validate. -/
def validate [DecidableEq D] (pi : PayloadImpl P D) (s : PayloadState P D)
    (payload : P) : Bool :=
  let expected_height := (s.latest_certified.map (fun p => pi.height p + 1)).getD 0
  if pi.height payload ≠ expected_height then
    false
  else
    match pi.parent payload with
    | some parent_digest =>
      let expected_parent := s.latest_certified.map pi.digest
      if some parent_digest ≠ expected_parent then false else true
    | none => true

/-- Automaton::verify for PayloadAutomaton: pending.map_or_else of the
by_height scan and the pending-digest comparison.  The Bool is what is sent on
the returned oneshot receiver. -/
def verify [DecidableEq D] (pi : PayloadImpl P D) (s : PayloadState P D) (digest : D) :
    Bool :=
  match s.pending with
  | some pend => decide (pi.digest pend.payload = digest)
  | none => s.by_height.any (fun kp => decide (pi.digest kp.2 = digest))

/-- ConductorState from src/src/conductor.rs: the record behind the RwLock. -/
structure ConductorState where
  running : Bool
  current_epoch : Nat
  is_sequencer : Bool
  deriving DecidableEq, Repr

/-- Conductor::commit from src/src/conductor.rs.  quorum_threshold is the
epoch manager lookup EpochManager::quorum_threshold, cfg_threshold is
ConductorConfig::quorum_threshold.  The commit body reads is_sequencer and
current_epoch, validates, then calls submit_proposal and awaits the returned
oneshot receiver: rx.await.map_or(Err(ChannelClosed), |_| Ok(())).  The result
is paired with the automaton state after the call (error paths return before
touching it). -/
def commit [DecidableEq D] (pi : PayloadImpl P D) (cfg_threshold : Nat)
    (quorum_threshold : Nat → Option Nat) (cs : ConductorState)
    (s : PayloadState P D) (payload : P) :
    Except ConductorError Unit × PayloadState P D :=
  if !cs.is_sequencer then
    (Except.error ConductorError.NotSequencer, s)
  else if !validate pi s payload then
    let expected_height := next_height pi s
    let got_height := pi.height payload
    if expected_height ≠ got_height then
      (Except.error (ConductorError.InvalidHeight expected_height got_height), s)
    else
      (Except.error (ConductorError.ValidationFailed "parent digest mismatch"), s)
  else
    let epoch := cs.current_epoch
    let threshold := (quorum_threshold epoch).getD cfg_threshold
    let (rx, s1) := submit_proposal pi s payload threshold
    match rx with
    | some _ => (Except.ok (), s1)
    | none => (Except.error ConductorError.ChannelClosed, s1)

/-- RoundRobinEpochManager from src/demo/src/epoch.rs, with the fields of its
inner EpochState inlined (the lock guards exactly that state). -/
structure RoundRobinEpochManager (K : Type) where
  participants : List K
  self_key : K
  self_idx : Nat
  epoch : Nat
  sequencer_idx : Nat
  deriving Repr

namespace RoundRobinEpochManager

/-- RoundRobinEpochManager::sequencer:
participants.get((epoch as usize) % participants.len()).cloned().  On an empty
participant list the Rust modulo panics; every claim about this function
assumes a non-empty list. -/
def sequencer (m : RoundRobinEpochManager K) (epoch : Nat) : Option K :=
  m.participants.get? (epoch % m.participants.length)

/-- RoundRobinEpochManager::quorum_threshold: participants.len() / 2 + 1. -/
def quorum_threshold (m : RoundRobinEpochManager K) (_epoch : Nat) : Option Nat :=
  some (m.participants.length / 2 + 1)

/-- RoundRobinEpochManager::transfer_leader. -/
def transfer_leader (_m : RoundRobinEpochManager K) : Except TransferError Unit :=
  Except.error TransferError.NotSupported

end RoundRobinEpochManager

/-- HealthBasedEpochManager from src/bin/epoch.rs, with the fields of its
inner EpochState (epoch, leader, self_url) inlined.  URLs are embedded as an
arbitrary linearly ordered type U standing for String with its byte-wise
lexicographic Ord; keys as a type K. -/
structure HealthBasedEpochManager (U K : Type) where
  epoch : Nat
  leader : Option U
  self_url : U
  public_key : K
  peer_keys : List K
  all_urls : List U
  quorum_threshold : Nat
  deriving Repr

namespace HealthBasedEpochManager

variable {U K : Type}

/-- HealthBasedEpochManager::new: all_urls = sort(peer_urls ++ [self_url]),
epoch 0, no leader. -/
def new [LinearOrder U] (self_url : U) (peer_urls : List U) (public_key : K)
    (peer_keys : List K) (quorum_threshold : Nat) : HealthBasedEpochManager U K :=
  { epoch := 0
    leader := none
    self_url := self_url
    public_key := public_key
    peer_keys := peer_keys
    all_urls := (peer_urls ++ [self_url]).mergeSort (fun a b => decide (a ≤ b))
    quorum_threshold := quorum_threshold }

/-- One tick of HealthBasedEpochManager::poll_and_update, as a function of the
healthy-peer URL list returned by the health tracker.  Returns the updated
manager state and the EpochChange broadcast on the channel, if any. -/
def poll_and_update [LinearOrder U] [DecidableEq U]
    (m : HealthBasedEpochManager U K) (healthy_peers : List U) :
    HealthBasedEpochManager U K × Option (EpochChange K) :=
  let candidates := (healthy_peers ++ [m.self_url]).mergeSort (fun a b => decide (a ≤ b))
  let new_leader := candidates.head?
  if m.leader ≠ new_leader then
    let m1 := { m with leader := new_leader, epoch := m.epoch + 1 }
    let is_self := decide (new_leader = some m.self_url)
    (m1, some { epoch := m1.epoch, sequencer := m.public_key, is_self := is_self })
  else
    (m, none)

/-- HealthBasedEpochManager::key_for_url. -/
def key_for_url [DecidableEq U] (m : HealthBasedEpochManager U K) (url : U) : Option K :=
  match m.all_urls.indexOf? url with
  | none => none
  | some idx =>
    if url = m.self_url then
      some m.public_key
    else
      match m.all_urls.indexOf? m.self_url with
      | none => none
      | some self_idx =>
        let peer_idx := if idx < self_idx then idx else idx - 1
        m.peer_keys.get? peer_idx

/-- HealthBasedEpochManager::sequencer: none unless the requested epoch is the
current one, else the key of the current leader URL. -/
def sequencer [DecidableEq U] (m : HealthBasedEpochManager U K) (epoch : Nat) : Option K :=
  if epoch ≠ m.epoch then none
  else m.leader.bind (fun url => key_for_url m url)

end HealthBasedEpochManager

/-! Concrete payload instances used by witnesses and counterexamples.  They
play the role of the TestPayload type of the test modules: the digest is read
off a data field, heights and parents are explicit. -/

/-- Concrete payload for witnesses: digest is the data field, height and
parent are explicit. -/
structure TP where
  data : Nat
  h : Nat
  par : Option Nat
  deriving DecidableEq, Repr

/-- Payload contract instance for TP. -/
def piTP : PayloadImpl TP Nat :=
  { digest := fun p => p.data, height := fun p => p.h, parent := fun p => p.par }

/-- Concrete genesis payload at height 0. -/
def g0 : TP := { data := 0, h := 0, par := none }

/-- Concrete successor payload at height 1 whose parent is the genesis digest. -/
def p1 : TP := { data := 1, h := 1, par := some 0 }

/-- State reached from the genesis-initialised automaton by one
submit_proposal of p1 with threshold 2: latest_certified is still the genesis
while a pending proposal exists. -/
def genesis_then_submit : PayloadState TP Nat :=
  (submit_proposal piTP (PayloadState.with_genesis piTP g0) p1 2).2

/-! Helper lemmas shared between claims. -/

/-- Looking up the key just inserted returns the inserted payload. -/
theorem bhGet_bhInsert (h : Nat) (p : P) (m : List (Nat × P)) :
    bhGet h (bhInsert h p m) = some p := by
  induction m with
  | nil => simp [bhInsert, bhGet]
  | cons kp rest ih =>
    obtain ⟨k, q⟩ := kp
    by_cases hk : k = h <;> simp [bhInsert, bhGet, hk, ih]

/-- A payload whose height is not the expected next height never validates. -/
theorem validate_false_of_height_ne [DecidableEq D] (pi : PayloadImpl P D)
    (s : PayloadState P D) (p : P) (h : pi.height p ≠ next_height pi s) :
    validate pi s p = false := by
  simp only [validate, next_height] at *
  simp [h]

/-- C2 (confirmed): validate accepts a payload iff its height is the expected
next height and, when it declares a parent, that parent is the digest of the
current latest certified payload; a declared parent therefore always fails on
an empty chain, and an absent parent passes the parent check. -/
theorem validate_iff [DecidableEq D] (pi : PayloadImpl P D) (s : PayloadState P D)
    (p : P) :
    validate pi s p = true ↔
      (pi.height p = (s.latest_certified.map (fun q => pi.height q + 1)).getD 0 ∧
       ∀ d, pi.parent p = some d → s.latest_certified.map pi.digest = some d) := by
  by_cases hh : pi.height p = (s.latest_certified.map (fun q => pi.height q + 1)).getD 0
  · rcases hpar : pi.parent p with _ | d
    · simp [validate, hh, hpar]
    · by_cases hd : s.latest_certified.map pi.digest = some d
      · simp [validate, hh, hpar, hd]
      · have hne : some d ≠ s.latest_certified.map pi.digest := by
          intro he
          exact hd he.symm
        simp [validate, hh, hpar, hne, hd]
        intro x hx hdx
        exact hd (by rw [hx]; simp [hdx])
  · simp [validate, hh]

/-- C2 witness. -/
theorem validate_iff_witness :
    validate piTP (PayloadState.with_genesis piTP g0) p1 = true ↔
      (piTP.height p1 =
        (((PayloadState.with_genesis piTP g0).latest_certified).map
          (fun q => piTP.height q + 1)).getD 0 ∧
       ∀ d, piTP.parent p1 = some d →
         ((PayloadState.with_genesis piTP g0).latest_certified).map piTP.digest
           = some d) :=
  validate_iff piTP (PayloadState.with_genesis piTP g0) p1

/-- C4 (confirmed): certify inserts the payload into by_height at its height,
never touches the pending proposal, and moves latest_certified to the payload
exactly when the chain was empty or the payload is strictly higher than the
current latest. -/
theorem certify_spec (pi : PayloadImpl P D) (s : PayloadState P D) (p : P) :
    (certify pi s p).pending = s.pending ∧
    (certify pi s p).by_height = bhInsert (pi.height p) p s.by_height ∧
    (s.latest_certified = none → (certify pi s p).latest_certified = some p) ∧
    (∀ q, s.latest_certified = some q → pi.height q < pi.height p →
      (certify pi s p).latest_certified = some p) ∧
    (∀ q, s.latest_certified = some q → ¬ pi.height q < pi.height p →
      (certify pi s p).latest_certified = some q) := by
  rcases hl : s.latest_certified with _ | q
  · refine ⟨?_, ?_, ?_, ?_, ?_⟩ <;> simp [certify, hl]
  · refine ⟨?_, ?_, ?_, ?_, ?_⟩
    · by_cases hq : pi.height q < pi.height p <;> simp [certify, hl, hq]
    · by_cases hq : pi.height q < pi.height p <;> simp [certify, hl, hq]
    · intro h
      exact Option.noConfusion h
    · intro r hr hq
      injection hr with hqr
      subst hqr
      simp [certify, hl, hq]
    · intro r hr hq
      injection hr with hqr
      subst hqr
      simp [certify, hl, hq]

/-- State of the automaton after n successive acknowledge calls. -/
def ack_iter (pi : PayloadImpl P D) : Nat → PayloadState P D → PayloadState P D
  | 0, s => s
  | n + 1, s => (acknowledge pi (ack_iter pi n s)).2

/-- acknowledge with no pending proposal returns none and leaves the state
unchanged. -/
theorem acknowledge_no_pending (pi : PayloadImpl P D) (s : PayloadState P D)
    (h : s.pending = none) : acknowledge pi s = (none, s) := by
  simp [acknowledge, h]

/-- A state without a pending proposal is a fixed point of acknowledge
iteration. -/
theorem ack_iter_no_pending (pi : PayloadImpl P D) (s : PayloadState P D)
    (h : s.pending = none) : ∀ k, ack_iter pi k s = s := by
  intro k
  induction k with
  | zero => rfl
  | succ n ih => simp [ack_iter, ih, acknowledge_no_pending pi s h]

/-- Iterating acknowledge splits into two runs. -/
theorem ack_iter_add (pi : PayloadImpl P D) (s : PayloadState P D) (m j : Nat) :
    ack_iter pi (m + j) s = ack_iter pi j (ack_iter pi m s) := by
  induction j with
  | zero => rfl
  | succ n ih => simp [ack_iter, ih]

/-- While the count stays below the threshold, acknowledge iteration only
increments the ack count of the pending proposal. -/
theorem ack_iter_below (pi : PayloadImpl P D) (p : P) (t : Nat) :
    ∀ (k : Nat) (s : PayloadState P D), s.pending = some ⟨p, 0, t⟩ → k < t →
      (ack_iter pi k s).pending = some ⟨p, k, t⟩ := by
  intro k
  induction k with
  | zero => intro s hs _; exact hs
  | succ n ih =>
    intro s hs hk
    have hn := ih s hs (Nat.lt_of_succ_lt hk)
    have hcert : (PendingPayload.mk p (n + 1) t).is_certified = false := by
      simp [PendingPayload.is_certified]
      omega
    simp [ack_iter, acknowledge, hn, hcert, PendingPayload.acknowledge]

/-- The acknowledge call that reaches the threshold certifies: it returns the
payload and clears pending. -/
theorem acknowledge_certifies (pi : PayloadImpl P D) (s : PayloadState P D)
    (p : P) (a t : Nat) (hs : s.pending = some ⟨p, a, t⟩) (h : a + 1 ≥ t) :
    acknowledge pi s =
      (some p,
       { s with by_height := bhInsert (pi.height p) p s.by_height
                latest_certified := some p
                pending := none }) := by
  have hcert : (PendingPayload.mk p (a + 1) t).is_certified = true := by
    simp [PendingPayload.is_certified]
    omega
  simp [acknowledge, hs, hcert, PendingPayload.acknowledge]

/-- After the certifying call, no pending proposal remains. -/
theorem ack_iter_cleared (pi : PayloadImpl P D) (s : PayloadState P D) (p : P)
    (t : Nat) (hs : s.pending = some ⟨p, 0, t⟩) :
    (ack_iter pi (max t 1) s).pending = none := by
  rcases Nat.eq_zero_or_pos t with ht | ht
  · subst ht
    have := acknowledge_certifies pi s p 0 0 hs (by omega)
    simp [ack_iter, this]
  · have hmax : max t 1 = t := Nat.max_eq_left ht
    rw [hmax]
    obtain ⟨t1, rfl⟩ : ∃ t1, t = t1 + 1 := ⟨t - 1, by omega⟩
    have hbelow := ack_iter_below pi p (t1 + 1) t1 s hs (Nat.lt_succ_self t1)
    have := acknowledge_certifies pi (ack_iter pi t1 s) p t1 (t1 + 1) hbelow
      (by omega)
    simp [ack_iter, this]

/-- C1 (confirmed): acknowledge increments the pending ack count; when the
incremented count reaches the threshold it certifies (inserts the payload in
by_height at its height, sets latest_certified, clears pending) and returns
the payload, otherwise it returns none; with no pending proposal it returns
none and changes nothing.  Consequently, after submit_proposal with threshold
t, among repeated acknowledge calls exactly the call reaching the threshold
(call number max t 1) returns some payload, every other call none. -/
theorem acknowledge_spec (pi : PayloadImpl P D) (s : PayloadState P D) :
    (∀ pend, s.pending = some pend →
      (pend.acks + 1 ≥ pend.threshold →
        acknowledge pi s =
          (some pend.payload,
           { s with by_height :=
                      bhInsert (pi.height pend.payload) pend.payload s.by_height
                    latest_certified := some pend.payload
                    pending := none })) ∧
      (pend.acks + 1 < pend.threshold →
        acknowledge pi s =
          (none,
           { s with
             pending := some (PendingPayload.mk pend.payload (pend.acks + 1) pend.threshold) }))) ∧
    (s.pending = none → acknowledge pi s = (none, s)) ∧
    (∀ p t k,
      (acknowledge pi (ack_iter pi k ((submit_proposal pi s p t).2))).1 =
        if k + 1 = max t 1 then some p else none) := by
  refine ⟨?_, acknowledge_no_pending pi s, ?_⟩
  · intro pend hs
    obtain ⟨p, a, t⟩ := pend
    constructor
    · intro h
      exact acknowledge_certifies pi s p a t hs h
    · intro h
      have h2 : a + 1 < t := h
      have hcert : (PendingPayload.mk p (a + 1) t).is_certified = false := by
        simp [PendingPayload.is_certified]
        omega
      simp [acknowledge, hs, hcert, PendingPayload.acknowledge]
  · intro p t k
    set s1 := (submit_proposal pi s p t).2 with hs1
    have hpend : s1.pending = some ⟨p, 0, t⟩ := by
      simp [hs1, submit_proposal, PendingPayload.new]
    rcases Nat.lt_trichotomy (k + 1) (max t 1) with hk | hk | hk
    · have ht : k < t := by omega
      have hb := ack_iter_below pi p t k s1 hpend ht
      have hcert : (PendingPayload.mk p (k + 1) t).is_certified = false := by
        simp [PendingPayload.is_certified]
        omega
      have hne : ¬ (k + 1 = max t 1) := by omega
      simp [acknowledge, hb, hcert, PendingPayload.acknowledge, hne]
    · rcases Nat.eq_zero_or_pos t with ht | ht
      · subst ht
        have hk0 : k = 0 := by omega
        subst hk0
        have := acknowledge_certifies pi s1 p 0 0 hpend (by omega)
        simp [ack_iter, this]
      · have hmax : max t 1 = t := Nat.max_eq_left ht
        have hkt : k + 1 = t := by omega
        have hkb : k < t := by omega
        have hb := ack_iter_below pi p t k s1 hpend hkb
        have := acknowledge_certifies pi (ack_iter pi k s1) p k t hb (by omega)
        simp [this, hk]
    · obtain ⟨j, hj⟩ : ∃ j, k = max t 1 + j := ⟨k - max t 1, by omega⟩
      subst hj
      have hcl := ack_iter_cleared pi s1 p t hpend
      rw [ack_iter_add]
      have hfix := ack_iter_no_pending pi (ack_iter pi (max t 1) s1) hcl j
      rw [hfix]
      have hne : ¬ (max t 1 + j + 1 = max t 1) := by omega
      simp [acknowledge_no_pending pi _ hcl, hne]

/-- C1 witness: threshold 2 over a fresh automaton; the second acknowledge
call certifies. -/
theorem acknowledge_spec_witness :
    (acknowledge piTP (ack_iter piTP 1
      ((submit_proposal piTP (PayloadState.new) g0 2).2))).1 = some g0 := by
  have h := (acknowledge_spec piTP (PayloadState.new)).2.2 g0 2 1
  simpa using h

/-- C4 witness: certifying p1 over the genesis chain with a pending proposal
in place. -/
theorem certify_spec_witness :
    (certify piTP genesis_then_submit p1).pending = genesis_then_submit.pending ∧
    (certify piTP genesis_then_submit p1).latest_certified = some p1 := by
  have h := certify_spec piTP genesis_then_submit p1
  refine ⟨h.1, h.2.2.2.1 g0 (by decide) (by decide)⟩

/-- C5 counterexample: the claim quantifies over every reachable state, but
one submit_proposal after a genesis initialisation yields a reachable state
in which latest_certified is the genesis while a pending proposal exists, so
latest_certified = some p does not entail pending = none. -/
theorem reachable_latest_pending_counterexample :
    genesis_then_submit.latest_certified = some g0 ∧
    genesis_then_submit.pending ≠ none := by
  decide

/-- C5 (amended): at the moment of certification the update is atomic: a call
to acknowledge that returns some p leaves a state in which latest_certified is
p, by_height holds p at its height, and pending is cleared, so a reader of
that state observes all three together. -/
theorem certification_atomic (pi : PayloadImpl P D) (s s2 : PayloadState P D)
    (p : P) (h : acknowledge pi s = (some p, s2)) :
    s2.latest_certified = some p ∧
    bhGet (pi.height p) s2.by_height = some p ∧
    s2.pending = none := by
  rcases hs : s.pending with _ | ⟨q, a, t⟩
  · rw [acknowledge_no_pending pi s hs] at h
    simp at h
  · by_cases hc : a + 1 ≥ t
    · rw [acknowledge_certifies pi s q a t hs hc] at h
      injection h with h1 h2
      injection h1 with h1
      subst h1
      subst h2
      exact ⟨rfl, bhGet_bhInsert _ _ _, rfl⟩
    · have h2 : a + 1 < t := by omega
      have hcert : (PendingPayload.mk q (a + 1) t).is_certified = false := by
        simp [PendingPayload.is_certified]
        omega
      rw [show acknowledge pi s =
          (none, { s with pending := some (PendingPayload.mk q (a + 1) t) }) by
        simp [acknowledge, hs, hcert, PendingPayload.acknowledge]] at h
      simp at h

/-- C5 witness: a certifying acknowledge run with threshold 1. -/
theorem certification_atomic_witness :
    ((acknowledge piTP ((submit_proposal piTP (PayloadState.new) g0 1).2)).2.latest_certified
        = some g0 ∧
      bhGet (piTP.height g0)
          (acknowledge piTP ((submit_proposal piTP (PayloadState.new) g0 1).2)).2.by_height
        = some g0 ∧
      (acknowledge piTP ((submit_proposal piTP (PayloadState.new) g0 1).2)).2.pending
        = none) :=
  certification_atomic piTP ((submit_proposal piTP (PayloadState.new) g0 1).2)
    (acknowledge piTP ((submit_proposal piTP (PayloadState.new) g0 1).2)).2 g0
    (by decide)

/-- C6 counterexample: with a pending proposal present, verify ignores
by_height.  In the reachable state genesis_then_submit the genesis digest is
stored in by_height, yet verify answers false for it, contradicting the
claimed unconditional disjunction. -/
theorem verify_disjunction_counterexample :
    (genesis_then_submit.by_height.any
        (fun kp => decide (piTP.digest kp.2 = piTP.digest g0))) = true ∧
    verify piTP genesis_then_submit (piTP.digest g0) = false := by
  decide

/-- C6 (amended): when a pending proposal exists, verify answers true iff the
digest is the pending payload digest; only when no proposal is pending does
it answer true iff the digest matches some certified payload in by_height. -/
theorem verify_spec [DecidableEq D] (pi : PayloadImpl P D) (s : PayloadState P D)
    (d : D) :
    (∀ pend, s.pending = some pend →
      (verify pi s d = true ↔ pi.digest pend.payload = d)) ∧
    (s.pending = none →
      (verify pi s d = true ↔ ∃ kp ∈ s.by_height, pi.digest kp.2 = d)) := by
  constructor
  · intro pend hs
    simp [verify, hs]
  · intro hs
    simp [verify, hs, List.any_eq_true]

/-- C6 witness for the amended claim, in the pending state of the
counterexample. -/
theorem verify_spec_witness :
    verify piTP genesis_then_submit (piTP.digest p1) = true ↔
      piTP.digest p1 = piTP.digest p1 :=
  (verify_spec piTP genesis_then_submit (piTP.digest p1)).1
    (PendingPayload.mk p1 0 2) (by decide)

/-- C3 (confirmed): commit rejects with NotSequencer whenever the node is not
the sequencer; as sequencer it rejects a wrong height with
InvalidHeight{expected, got} and a right-height validation failure with
ValidationFailed "parent digest mismatch"; every error path leaves the
automaton state untouched, so no pending proposal is created. -/
theorem commit_error_spec [DecidableEq D] (pi : PayloadImpl P D)
    (cfg_threshold : Nat) (quorum_threshold : Nat → Option Nat)
    (cs : ConductorState) (s : PayloadState P D) (p : P) :
    (cs.is_sequencer = false →
      commit pi cfg_threshold quorum_threshold cs s p =
        (Except.error ConductorError.NotSequencer, s)) ∧
    (cs.is_sequencer = true → pi.height p ≠ next_height pi s →
      commit pi cfg_threshold quorum_threshold cs s p =
        (Except.error (ConductorError.InvalidHeight (next_height pi s) (pi.height p)),
         s)) ∧
    (cs.is_sequencer = true → pi.height p = next_height pi s →
      validate pi s p = false →
      commit pi cfg_threshold quorum_threshold cs s p =
        (Except.error (ConductorError.ValidationFailed "parent digest mismatch"),
         s)) := by
  refine ⟨?_, ?_, ?_⟩
  · intro hseq
    simp [commit, hseq]
  · intro hseq hne
    have hv := validate_false_of_height_ne pi s p hne
    have hne2 : next_height pi s ≠ pi.height p := fun he => hne he.symm
    simp only [next_height] at hne2
    simp [commit, hseq, hv, next_height, hne2]
  · intro hseq heq hv
    have heq2 : next_height pi s = pi.height p := heq.symm
    simp only [next_height] at heq2
    simp [commit, hseq, hv, next_height, heq2]

/-- C3 witness, scenario S2 of the spec: genesis at height 0 present, commit
of a height-5 payload as sequencer yields InvalidHeight{expected 1, got 5}
and leaves the automaton unchanged. -/
theorem commit_error_spec_witness :
    commit piTP 1 (fun _ => none)
        (ConductorState.mk true 0 true) (PayloadState.with_genesis piTP g0)
        (TP.mk 9 5 none) =
      (Except.error (ConductorError.InvalidHeight 1 5),
       PayloadState.with_genesis piTP g0) :=
  (commit_error_spec piTP 1 (fun _ => none) (ConductorState.mk true 0 true)
    (PayloadState.with_genesis piTP g0) (TP.mk 9 5 none)).2.1 rfl (by decide)

/-- C10 (confirmed): as sequencer with a validating payload, commit succeeds:
submit_proposal fires the digest on the oneshot channel before returning the
receiver, so awaiting the receiver yields the digest and the ChannelClosed
branch is unreachable. -/
theorem commit_ok [DecidableEq D] (pi : PayloadImpl P D) (cfg_threshold : Nat)
    (quorum_threshold : Nat → Option Nat) (cs : ConductorState)
    (s : PayloadState P D) (p : P) (hseq : cs.is_sequencer = true)
    (hv : validate pi s p = true) :
    (∀ t, (submit_proposal pi s p t).1 = some (pi.digest p)) ∧
    (commit pi cfg_threshold quorum_threshold cs s p).1 = Except.ok () := by
  refine ⟨fun t => rfl, ?_⟩
  simp [commit, hseq, hv, submit_proposal]

/-- C10 witness: committing the genesis payload on a fresh automaton as
sequencer. -/
theorem commit_ok_witness :
    (commit piTP 1 (fun _ => none) (ConductorState.mk true 0 true)
        (PayloadState.new) g0).1 = Except.ok () :=
  (commit_ok piTP 1 (fun _ => none) (ConductorState.mk true 0 true)
    (PayloadState.new) g0 rfl (by decide)).2

/-- C7 (confirmed): for a round-robin manager over a non-empty participant
list, sequencer(e) is the participant at index e mod n for every epoch e, the
quorum threshold is n / 2 + 1, and transfer_leader is NotSupported. -/
theorem round_robin_spec {K : Type} (m : RoundRobinEpochManager K)
    (h : 0 < m.participants.length) :
    (∀ e, m.sequencer e =
      some (m.participants.get ⟨e % m.participants.length, Nat.mod_lt e h⟩)) ∧
    (∀ e, m.quorum_threshold e = some (m.participants.length / 2 + 1)) ∧
    m.transfer_leader = Except.error TransferError.NotSupported := by
  refine ⟨fun e => ?_, fun e => rfl, rfl⟩
  exact List.get?_eq_get (Nat.mod_lt e h)

/-- Concrete three-participant round-robin manager, scenario S5 of the spec. -/
def rr3 : RoundRobinEpochManager Nat :=
  { participants := [10, 20, 30], self_key := 10, self_idx := 0,
    epoch := 0, sequencer_idx := 0 }

/-- C7 witness: with three participants, epoch 4 maps to index 4 mod 3 = 1. -/
theorem round_robin_spec_witness :
    rr3.sequencer 4 = some 20 ∧ rr3.quorum_threshold 4 = some 2 ∧
    rr3.transfer_leader = Except.error TransferError.NotSupported := by
  have h := round_robin_spec rr3 (by decide)
  exact ⟨(h.1 4).trans rfl, h.2.1 4, h.2.2⟩

/-- The leader elected by one poll tick: the head of the sorted candidate
list healthy_peers ++ [self_url] (src/bin/epoch.rs, poll_and_update). -/
def elected_leader [LinearOrder U] (m : HealthBasedEpochManager U K)
    (healthy_peers : List U) : Option U :=
  ((healthy_peers ++ [m.self_url]).mergeSort (fun a b => decide (a ≤ b))).head?

/-- The elected leader exists and is a least element of the candidate set. -/
theorem elected_leader_min [LinearOrder U] (m : HealthBasedEpochManager U K)
    (healthy_peers : List U) :
    ∃ u, elected_leader m healthy_peers = some u ∧
      u ∈ healthy_peers ++ [m.self_url] ∧
      ∀ v ∈ healthy_peers ++ [m.self_url], u ≤ v := by
  have hperm := List.mergeSort_perm (healthy_peers ++ [m.self_url])
    (fun a b => decide (a ≤ b))
  have hsorted := List.sorted_mergeSort' (healthy_peers ++ [m.self_url])
  cases hms : (healthy_peers ++ [m.self_url]).mergeSort (fun a b => decide (a ≤ b)) with
  | nil =>
    exfalso
    have hlen := hperm.length_eq
    rw [hms] at hlen
    simp at hlen
  | cons u tl =>
    rw [hms] at hperm hsorted
    refine ⟨u, by simp [elected_leader, hms], ?_, ?_⟩
    · exact hperm.mem_iff.mp (List.mem_cons_self u tl)
    · intro v hv
      rcases List.mem_cons.mp (hperm.mem_iff.mpr hv) with rfl | hvtl
      · exact le_refl v
      · exact List.rel_of_sorted_cons hsorted v hvtl

/-- C8 (confirmed): a poll tick elects the head of the sorted
healthy-plus-self candidate list, which is a minimum of that set; when it
differs from the stored leader the tick increments the epoch by one, stores
the new leader and broadcasts an EpochChange carrying the incremented epoch
and is_self = (new_leader = Some self_url); when it coincides, the state is
untouched and nothing is broadcast. -/
theorem poll_and_update_spec {U K : Type} [LinearOrder U] [DecidableEq U]
    (m : HealthBasedEpochManager U K) (healthy_peers : List U) :
    (m.leader = elected_leader m healthy_peers →
      m.poll_and_update healthy_peers = (m, none)) ∧
    (m.leader ≠ elected_leader m healthy_peers →
      m.poll_and_update healthy_peers =
        ({ m with leader := elected_leader m healthy_peers, epoch := m.epoch + 1 },
         some (EpochChange.mk (m.epoch + 1) m.public_key
           (decide (elected_leader m healthy_peers = some m.self_url))))) ∧
    (∃ u, elected_leader m healthy_peers = some u ∧
      u ∈ healthy_peers ++ [m.self_url] ∧
      ∀ v ∈ healthy_peers ++ [m.self_url], u ≤ v) := by
  refine ⟨?_, ?_, elected_leader_min m healthy_peers⟩
  · intro hsame
    simp [HealthBasedEpochManager.poll_and_update, elected_leader] at hsame ⊢
    simp [hsame]
  · intro hdiff
    simp [HealthBasedEpochManager.poll_and_update, elected_leader] at hdiff ⊢
    simp [hdiff]

/-- Concrete two-node health-based manager: self_url 2 with peer url 1, own
key 5, peer key 7 (URLs stand for strings, smaller number = lexicographically
smaller URL). -/
def m8 : HealthBasedEpochManager Nat Nat :=
  HealthBasedEpochManager.new 2 [1] 5 [7] 1

/-- C8 witness: with no healthy peer, the node elects itself: epoch 1,
leader self, is_self true. -/
theorem poll_and_update_spec_witness :
    m8.poll_and_update [] =
      ({ m8 with leader := some 2, epoch := 1 },
       some (EpochChange.mk 1 5 true)) := by
  have he : elected_leader m8 [] = some 2 := by
    show (([] ++ [(2 : Nat)]).mergeSort (fun a b => decide (a ≤ b))).head? = some 2
    rw [List.mergeSort_eq_self (by simp)]
    rfl
  have h := (poll_and_update_spec m8 []).2.1
    (by rw [he]; exact fun hcon => Option.noConfusion hcon)
  rw [he] at h
  exact h

/-- C9 (code bug): on the tick that elects the peer at url 1 as leader, the
broadcast EpochChange for epoch 1 carries the node's own public key 5 in its
sequencer field (poll_and_update always sends self.public_key), while
sequencer(1) evaluated immediately after the change resolves the leader url
through key_for_url to the peer key 7. -/
theorem epoch_change_sequencer_bug :
    ((m8.poll_and_update [1]).2.map EpochChange.sequencer) = some 5 ∧
    HealthBasedEpochManager.sequencer (m8.poll_and_update [1]).1 1 = some 7 := by
  have he : elected_leader m8 [1] = some 1 := by
    show (([1] ++ [(2 : Nat)]).mergeSort (fun a b => decide (a ≤ b))).head? = some 1
    rw [List.mergeSort_eq_self (by simp)]
    rfl
  have hpoll := (poll_and_update_spec m8 [1]).2.1
    (by rw [he]; exact fun hcon => Option.noConfusion hcon)
  rw [he] at hpoll
  have hall : m8.all_urls = [1, 2] := by
    show (([1] ++ [(2 : Nat)]).mergeSort (fun a b => decide (a ≤ b))) = [1, 2]
    exact List.mergeSort_eq_self (by simp)
  constructor
  · rw [hpoll]
    rfl
  · rw [hpoll]
    simp [HealthBasedEpochManager.sequencer, HealthBasedEpochManager.key_for_url, hall]
    exact ⟨rfl, rfl⟩

end Arturo
